import Mathlib

/-!
Verification of the oniryk-xlsx streaming XLSX writer.

This file is a shallow embedding of the core serialization pipeline:
the shared-string deduplication table (`src/shared-strings.ts`), the
XML-escaping and date-serial helpers (`src/utils.ts`), the column-name
helper (`src/column.ts`), the worksheet row encoder (`src/sheet.ts`),
and the package assembler (`src/packing.ts`).  JavaScript numbers that
matter to the claims are integers or exact 5-decimal rationals, so they
are modelled as `Int`/`Rat`; strings are Lean `String`s.
-/

set_option maxRecDepth 10000

/-- Lookup of a string's position, modelling `stringIndexMap.get(str)` of
`SharedStrings`: the map always holds exactly the first (unique) position
of each stored string, i.e. its index in the `strings` array. -/
def idxOf? : List String → String → Option Nat
  | [], _ => none
  | a :: l, s => if a = s then some 0 else (idxOf? l s).map (· + 1)

/-- State of `SharedStrings` (src/shared-strings.ts): the insertion-ordered
array of unique strings.  The companion `stringIndexMap` is represented by
`idxOf?` on this list, which is exactly the invariant the class maintains. -/
structure SharedStrings where
  strings : List String
deriving DecidableEq, Repr

/-- A freshly constructed `SharedStrings` instance. -/
def SharedStrings.empty : SharedStrings := ⟨[]⟩

/-- `SharedStrings.add` (src/shared-strings.ts lines 38-47): return the
existing index when the string was seen before, otherwise append it and
return the new index (`strings.push(str) - 1`, i.e. the previous length). -/
def SharedStrings.add (ss : SharedStrings) (s : String) : Nat × SharedStrings :=
  match idxOf? ss.strings s with
  | some i => (i, ss)
  | none => (ss.strings.length, ⟨ss.strings ++ [s]⟩)

/-- `SharedStrings.size` (src/shared-strings.ts lines 87-89). -/
def SharedStrings.size (ss : SharedStrings) : Nat := ss.strings.length

/-- Run a sequence of `add` calls left to right, keeping only the state. -/
def runAdds (l : List String) (ss : SharedStrings) : SharedStrings :=
  l.foldl (fun st s => (st.add s).2) ss

/-- The id returned by an `add` call in a given state. -/
def addId (ss : SharedStrings) (s : String) : Nat := (ss.add s).1

/- ### XML escaping (src/utils.ts `escapeXML`) -/

/-- First `replace` pass of `escapeXML`: every control character
(code points 0x00-0x1F and 0x7F) becomes `?`. -/
def escapeChar1 (c : Char) : Char :=
  if c.toNat ≤ 0x1F ∨ c.toNat = 0x7F then '?' else c

/-- Whole-string first pass, modelling `value.replace(/[\x00-\x1F\x7F]/g, '?')`. -/
def pass1 (s : String) : String := ⟨s.data.map escapeChar1⟩

/-- Second `replace` pass of `escapeXML`, per matched character: the five
XML-special characters map through the `entities` table; a backslash is
matched by the regex `/[&<>"'\\]/` but has no entry in `entities`, so the
replacement callback returns `undefined`, which JavaScript `replace`
stringifies to the literal text `undefined`. -/
def escapeChar2 (c : Char) : String :=
  if c = '&' then "&amp;"
  else if c = '<' then "&lt;"
  else if c = '>' then "&gt;"
  else if c = '"' then "&quot;"
  else if c = '\'' then "&apos;"
  else if c = '\\' then "undefined"
  else String.singleton c

/-- Whole-string second pass, modelling
`.replace(/[&<>"'\\]/g, (char) => entities[char])`. -/
def pass2 (s : String) : String := String.join (s.data.map escapeChar2)

/-- `escapeXML` (src/utils.ts lines 121-127): the two passes composed. -/
def escapeXML (s : String) : String := pass2 (pass1 s)

/- ### Date serial conversion (src/utils.ts `convertToExcelDate`) -/

/-- `EPOCH` (src/utils.ts line 130): the timestamp in milliseconds of
midnight, December 30 1899 (`new Date(1899, 11, 30, 0, 0, 0).getTime()`;
the source computes it in the host timezone, modelled here as UTC). -/
def EPOCH : Int := -2209161600000

/-- `DAY_MS` (src/utils.ts line 133): milliseconds in a day. -/
def DAY_MS : Int := 24 * 60 * 60 * 1000

/-- JavaScript `Math.round`: round half towards positive infinity. -/
def jsRound (q : ℚ) : ℤ := ⌊q + 1 / 2⌋

/-- `convertToExcelDate` (src/utils.ts lines 142-144) on the timestamp in
milliseconds: `Math.round(((ms - EPOCH) / DAY_MS) * 100000) / 100000`,
with real arithmetic modelled exactly over `ℚ`. -/
def convertToExcelDate (ms : Int) : ℚ :=
  (jsRound ((((ms : ℚ) - (EPOCH : ℚ)) / (DAY_MS : ℚ)) * 100000) : ℚ) / 100000

/-- Modelled from the spec (§4.2 cell dispatch, case 4): the serial number
of a date cell is `(timestamp_ms - epoch_ms) / 86_400_000`, rounded to 5
decimal places via `round(x * 100000) / 100000`, where `epoch_ms` is
midnight of December 30, 1899. -/
def specDateSerial (ms : Int) : ℚ :=
  (jsRound ((((ms : ℚ) - (EPOCH : ℚ)) / 86400000) * 100000) : ℚ) / 100000

/- ### Column names (src/column.ts `columnName`) -/

/-- Loop body of `columnName` (src/column.ts lines 8-15): prepend the
letter for `index mod 26`, continue with `floor(index / 26) - 1`, and stop
once that would drop below zero (for a `Nat` index the JavaScript test
`index >= 0` fails exactly when the current index is below 26). -/
def columnNameGo (n : Nat) (acc : String) : String :=
  let acc' := String.singleton (Char.ofNat (65 + n % 26)) ++ acc
  if h : n < 26 then acc' else columnNameGo (n / 26 - 1) acc'
termination_by n
decreasing_by
  have h26 : 0 < n / 26 := Nat.div_pos (Nat.le_of_not_lt h) (by decide)
  omega

/-- `columnName` (src/column.ts): zero-based column index to letters. -/
def columnName (n : Nat) : String := columnNameGo n ""

/-- The precomputed `Sheet.COLUMNS` map (src/sheet.ts static block):
`columnName i` for every `i < 702`, absent otherwise. -/
def COLUMNS (i : Nat) : Option String :=
  if i < 702 then some (columnName i) else none

/-- `Sheet.getExcelColumn` (src/sheet.ts lines 120-122):
`Sheet.COLUMNS.get(index) || columnName(index)` (column names are never
empty, so the `||` fallback only fires on a missing key). -/
def getExcelColumn (i : Nat) : String :=
  (COLUMNS i).getD (columnName i)

/- ### Number rendering -/

/-- Drop trailing `0` characters. -/
def trimZeros (s : String) : String := ⟨(s.data.reverse.dropWhile (· = '0')).reverse⟩

/-- Zero-pad a natural number to five digits. -/
def pad5 (m : Nat) : String := ⟨List.replicate (5 - (toString m).length) '0'⟩ ++ toString m

/-- JavaScript template-literal stringification `${x}` of the numbers this
pipeline renders: integers print with no decimal point, and the 5-decimal
rationals produced by `convertToExcelDate` print as integer part, a dot,
and the fraction digits with trailing zeros removed. -/
def qToString (q : ℚ) : String :=
  if q.den = 1 then toString q.num
  else
    (if q < 0 then "-" else "") ++
      toString (q.num.natAbs * (100000 / q.den) / 100000) ++ "." ++
      trimZeros (pad5 (q.num.natAbs * (100000 / q.den) % 100000))

/- ### Worksheet rows (src/sheet.ts) -/

/-- The `Cell` type of src/sheet.ts: `string | number | Date | null`.
A `Date` is carried as its timestamp in milliseconds. -/
inductive Cell where
  | str (s : String)
  | num (q : ℚ)
  | date (ms : Int)
  | null
deriving DecidableEq, Repr

/-- A worksheet row: an ordered list of cells. -/
abbrev Row := List Cell

/-- One cell element as emitted by the dispatch in `Sheet.writeChunk`
(src/sheet.ts lines 146-172), given the row-number string and 0-based
column index.  The `object`/`default` fallback branches of the source are
unreachable for values of the declared `Cell` type and have no
counterpart here. -/
def cellXML (rstr : String) (ci : Nat) (cell : Cell) (ss : SharedStrings) :
    String × SharedStrings :=
  match cell with
  | .null => ("<c r=\"" ++ getExcelColumn ci ++ rstr ++ "\"/>", ss)
  | .str s =>
      let p := ss.add s
      ("<c r=\"" ++ getExcelColumn ci ++ rstr ++ "\" t=\"s\"><v>" ++
        toString p.1 ++ "</v></c>", p.2)
  | .num q =>
      ("<c r=\"" ++ getExcelColumn ci ++ rstr ++ "\"><v>" ++ qToString q ++ "</v></c>", ss)
  | .date ms =>
      ("<c r=\"" ++ getExcelColumn ci ++ rstr ++ "\" s=\"1\"><v>" ++
        qToString (convertToExcelDate ms) ++ "</v></c>", ss)

/-- The inner cell loop of `Sheet.writeChunk`: emit the cells of one row
left to right, threading the shared-string state. -/
def writeCells : List Cell → Nat → String → SharedStrings → String × SharedStrings
  | [], _, _, ss => ("", ss)
  | c :: cs, ci, rstr, ss =>
      let p := cellXML rstr ci c ss
      let q := writeCells cs (ci + 1) rstr p.2
      (p.1 ++ q.1, q.2)

/-- One `<row>` element of `Sheet.writeChunk`, for the given 1-based row
number. -/
def rowXML (r : Row) (n : Nat) (ss : SharedStrings) : String × SharedStrings :=
  let rstr := toString n
  let p := writeCells r 0 rstr ss
  ("<row r=\"" ++ rstr ++ "\">" ++ p.1 ++ "</row>", p.2)

/-- `Sheet.writeChunk` (src/sheet.ts lines 132-181): emit a batch of rows,
the row at batch offset `i` getting row number `startIndex + i + 1`; the
batch's cell strings are joined and written as one chunk of output. -/
def writeChunk : List Row → Nat → SharedStrings → String × SharedStrings
  | [], _, ss => ("", ss)
  | r :: rs, start, ss =>
      let p := rowXML r (start + 1) ss
      let q := writeChunk rs (start + 1) p.2
      (p.1 ++ q.1, q.2)

/-- The batching loop of `Sheet.generateSheetXML` (src/sheet.ts lines
206-209): `for (i = 0; i < rows.length; i += CHUNK_SIZE)` take the slice
`rows.slice(i, i + CHUNK_SIZE)` and pass it to `writeChunk` with absolute
start index `i`; each iteration produces one written chunk.  (For a chunk
size of 0 the JavaScript loop would not terminate; this model then takes
single-row chunks, a case no claim exercises — the source size is 2500.) -/
def chunkLoop (c : Nat) : List Row → Nat → SharedStrings → List String × SharedStrings
  | [], _, ss => ([], ss)
  | r :: rest, i, ss =>
      let chunk := r :: rest.take (c - 1)
      let p := writeChunk chunk i ss
      let q := chunkLoop c (rest.drop (c - 1)) (i + c) p.2
      (p.1 :: q.1, q.2)
termination_by rows => rows.length
decreasing_by simp [List.length_drop]; omega

/-- `Sheet.CHUNK_SIZE` (src/sheet.ts line 43). -/
def CHUNK_SIZE : Nat := 2500

/-- The `<col>` mapper (src/sheet.ts lines 30-32). -/
def mapper (p : Int × ℚ) : String :=
  "<col min=\"" ++ toString (p.1 + 1) ++ "\" max=\"" ++ toString (p.1 + 1) ++
    "\" width=\"" ++ qToString p.2 ++ "\" customWidth=\"1\"/>"

/-- `Sheet` state (src/sheet.ts): the buffered rows and the column-width
map, the latter as its insertion-ordered `(index, width)` entries. -/
structure Sheet where
  rows : List Row
  columnWidths : List (Int × ℚ)
deriving DecidableEq, Repr

/-- The XML declaration line both generators write first. -/
def xmlDecl : String := "<?xml version=\"1.0\" encoding=\"UTF-8\" standalone=\"yes\"?>\n"

/-- `Sheet.generateSheetXML` (src/sheet.ts lines 187-215) with the chunk
size as a parameter (the source fixes it to `CHUNK_SIZE = 2500`): header,
optional `<cols>` block, then the row data written in batches.  Returns
the full written output and the final shared-string state. -/
def generateSheetXML (c : Nat) (sheet : Sheet) (ss : SharedStrings) :
    String × SharedStrings :=
  let colsBlock :=
    if sheet.columnWidths.length > 0 then
      "<cols>" ++ String.join (sheet.columnWidths.map mapper) ++ "</cols>"
    else ""
  let p := chunkLoop c sheet.rows 0 ss
  (xmlDecl ++
    "<worksheet xmlns=\"http://schemas.openxmlformats.org/spreadsheetml/2006/main\">" ++
    colsBlock ++ "<sheetData>" ++ String.join p.1 ++ "</sheetData></worksheet>", p.2)

/- ### Shared-strings XML (src/shared-strings.ts `generateSharedStringsXML`) -/

/-- One `<si>` entry of the shared-strings table. -/
def siEntry (s : String) : String := "<si><t>" ++ escapeXML s ++ "</t></si>"

/-- The `<sst>` opening tag written by `generateSharedStringsXML`
(src/shared-strings.ts lines 60-64), reproducing the template literal's
embedded newline and indentation; both `count` and `uniqueCount` are set
to `this.strings.length`. -/
def sstOpen (n : Nat) : String :=
  "<sst xmlns=\"http://schemas.openxmlformats.org/spreadsheetml/2006/main\"\n            count=\"" ++
    toString n ++ "\" uniqueCount=\"" ++ toString n ++ "\">"

/-- The entry loop of `generateSharedStringsXML` (src/shared-strings.ts
lines 66-75): push each entry onto `acc`, and whenever `acc.length % b`
is zero (with a fresh push the length is in `1..b`, so exactly when it
reaches `b`) write out the joined batch and reset `acc`.  Returns the
written batches and the leftover accumulator. -/
def sstLoop (b : Nat) : List String → List String → List String × List String
  | [], acc => ([], acc)
  | s :: rest, acc =>
      let acc' := acc ++ [siEntry s]
      if acc'.length % b = 0 then
        let p := sstLoop b rest []
        (String.join acc' :: p.1, p.2)
      else sstLoop b rest acc'

/-- `generateSharedStringsXML` with the batch size as a parameter (the
source fixes it to 5000): the sequence of strings handed to the stream —
the header write, each full batch, and the final write of the leftover
accumulator joined with the closing tag. -/
def generateSharedStringsXML (b : Nat) (ss : SharedStrings) : List String :=
  let p := sstLoop b ss.strings []
  (xmlDecl ++ sstOpen ss.strings.length) :: (p.1 ++ [String.join p.2 ++ "</sst>"])

/-- The shared-strings document written in one piece: header, every entry
in insertion order, closing tag. -/
def sstDirect (ss : SharedStrings) : String :=
  xmlDecl ++ sstOpen ss.strings.length ++ String.join (ss.strings.map siEntry) ++ "</sst>"

/- ### Package assembly (src/packing.ts) -/

/-- `Package.build` (src/packing.ts lines 83-96), tracked as the list of
zip entry paths in insertion order together with the final shared-string
state: the five fixed parts from `addMockFiles`, then the generated
worksheet part, then — only if `sharedStrings.size() > 0` after worksheet
generation — the shared-strings part. -/
def Package.build (sheet : Sheet) (ss : SharedStrings) : List String × SharedStrings :=
  let mock := ["_rels/.rels", "xl/workbook.xml", "xl/_rels/workbook.xml.rels",
    "xl/styles.xml", "[Content_Types].xml"]
  let p := generateSheetXML CHUNK_SIZE sheet ss
  let base := mock ++ ["xl/worksheets/sheet1.xml"]
  if p.2.size > 0 then (base ++ ["xl/sharedStrings.xml"], p.2) else (base, p.2)

/- ### Column widths (src/sheet.ts `setColumWidth`) -/

/-- Runtime JavaScript values a `setColumWidth` call can receive: numbers,
strings, arrays and `undefined`.  The remaining runtime shapes (booleans,
`null`, plain objects) behave exactly like `undefined` in this method — they
fail the `typeof === 'number'` test and are not iterable — so they are
folded into `undefined`. -/
inductive JsVal where
  | num (q : ℚ)
  | str (s : String)
  | arr (l : List JsVal)
  | undefined
deriving Repr

/-- JavaScript `Map` key equality (SameValueZero): by value for the
primitives, by object identity for arrays.  The model does not track
references, and every array that reaches the width map here is a freshly
destructured value, so an array key matches no key (aliasing the same
array object into two writes is outside the model's scope). -/
def keyEq : JsVal → JsVal → Bool
  | .num a, .num b => a == b
  | .str a, .str b => a == b
  | .undefined, .undefined => true
  | _, _ => false

/-- JavaScript `Map.set` on insertion-ordered entries: overwrite the value
in place (keeping the original key) if the key matches, else append. -/
def mapSet : List (JsVal × JsVal) → JsVal → JsVal → List (JsVal × JsVal)
  | [], k, v => [(k, v)]
  | (k', v') :: rest, k, v =>
      if keyEq k' k then (k', v) :: rest else (k', v') :: mapSet rest k v

/-- JavaScript `Map.get` on insertion-ordered entries. -/
def mapGet? : List (JsVal × JsVal) → JsVal → Option JsVal
  | [], _ => none
  | (k', v') :: rest, k => if keyEq k' k then some v' else mapGet? rest k

/-- Indexing into a JavaScript string's iterator: a one-character string,
or `undefined` past the end. -/
def strElemAt (s : String) (i : Nat) : JsVal :=
  match s.data[i]? with
  | some c => .str (String.singleton c)
  | none => .undefined

/-- The destructuring `const [index, width] = e` in the bulk loop of
`setColumWidth`: arrays yield their first two elements (padded with
`undefined`), strings are iterable and yield their first two characters,
and every other value is not iterable — the destructuring throws a
`TypeError` (`none`). -/
def jsDestr : JsVal → Option (JsVal × JsVal)
  | .arr l => some ((l[0]?).getD .undefined, (l[1]?).getD .undefined)
  | .str s => some (strElemAt s 0, strElemAt s 1)
  | _ => none

/-- The `for (const [index, width] of indexOrSizes)` loop of
`setColumWidth`: elements are destructured and written in order; a
non-iterable element throws, leaving the writes made so far in the map. -/
def bulkLoop : List JsVal → List (JsVal × JsVal) → List (JsVal × JsVal) × Option String
  | [], m => (m, none)
  | e :: rest, m =>
      match jsDestr e with
      | none => (m, some "TypeError")
      | some p => bulkLoop rest (mapSet m p.1 p.2)

/-- `Sheet.setColumWidth` (src/sheet.ts lines 102-112) at the JavaScript
value level: an `Array.isArray` argument runs the bulk loop on its raw
contents (no validation — junk pairs are written, non-iterable elements
raise a `TypeError`); a pair of numbers sets one entry; any other shape
falls through both branches and does nothing.  Returns the resulting map
and the raised error, if any.  (`Sheet.columnWidths` in the `Sheet`
structure above holds the well-typed entries the worksheet generator
renders; this function is the runtime behaviour of the setter itself.) -/
def setColumWidth (m : List (JsVal × JsVal)) (indexOrSizes width : JsVal) :
    List (JsVal × JsVal) × Option String :=
  match indexOrSizes with
  | .arr l => bulkLoop l m
  | .num i =>
      match width with
      | .num w => (mapSet m (.num i) (.num w), none)
      | _ => (m, none)
  | _ => (m, none)

/-- The `(index, width)` writes a call's argument performs, in order —
for a bulk argument, the destructured elements up to the first
non-iterable one. -/
def writesOfBulk : List JsVal → List (JsVal × JsVal)
  | [] => []
  | e :: rest =>
      match jsDestr e with
      | none => []
      | some p => p :: writesOfBulk rest

/-- The writes performed by one `setColumWidth` call. -/
def writesOf (indexOrSizes width : JsVal) : List (JsVal × JsVal)  :=
  match indexOrSizes with
  | .arr l => writesOfBulk l
  | .num i =>
      match width with
      | .num w => [(.num i, .num w)]
      | _ => []
  | _ => []

/-- Run a sequence of `setColumWidth` calls on a map, keeping the map
(errors raised by one call do not undo its completed writes, and the
sequence continues as for a caller that catches them). -/
def applyCalls : List (JsVal × JsVal) → List (JsVal × JsVal) → List (JsVal × JsVal)
  | [], m => m
  | c :: rest, m => applyCalls rest (setColumWidth m c.1 c.2).1

/-- The last write for a given key in a write sequence, if any. -/
def lastWrite : List (JsVal × JsVal) → JsVal → Option JsVal
  | [], _ => none
  | (k, v) :: rest, i =>
      match lastWrite rest i with
      | some w => some w
      | none => if keyEq k i then some v else none

/-- Does the value pass `Array.isArray`? -/
def JsVal.isArr : JsVal → Bool
  | .arr _ => true
  | _ => false

/-- Does the value satisfy `typeof x === 'number'`? -/
def JsVal.isNum : JsVal → Bool
  | .num _ => true
  | _ => false

/- ### String helper lemmas -/

@[simp] lemma strDataNil : "".data = [] := rfl

lemma strEmptyAppend (s : String) : "" ++ s = s := String.ext (by simp)

lemma strAppendEmpty (s : String) : s ++ "" = s := String.ext (by simp)

lemma strAppendAssoc (a b c : String) : a ++ b ++ c = a ++ (b ++ c) := String.ext (by simp)

lemma joinNil : String.join [] = "" := rfl

lemma joinCons (x : String) (xs : List String) :
    String.join (x :: xs) = x ++ String.join xs :=
  String.ext (by simp)

lemma joinAppend (l m : List String) :
    String.join (l ++ m) = String.join l ++ String.join m :=
  String.ext (by simp)

/- ### Column-name lemmas -/

@[simp] lemma getExcelColumn_eq (n : Nat) : getExcelColumn n = columnName n := by
  unfold getExcelColumn COLUMNS
  split <;> simp

/-- C9: Column-letter naming.  `columnName` follows the spec's loop — take
`index mod 26` to pick a letter (0 is `A`, 25 is `Z`), prepend it, continue
with `floor(index / 26) - 1` until that drops below zero (the recursion in
`columnNameGo` is literally this loop) — and the lookup path
`Sheet.getExcelColumn` always agrees with direct computation; the spec's
five anchor values hold. -/
theorem c9_column_names :
    columnName 0 = "A" ∧ columnName 25 = "Z" ∧ columnName 26 = "AA" ∧
    columnName 701 = "ZZ" ∧ columnName 702 = "AAA" ∧
    (∀ n, getExcelColumn n = columnName n) ∧
    (∀ n acc, columnNameGo n acc =
      (if n < 26 then String.singleton (Char.ofNat (65 + n % 26)) ++ acc
       else columnNameGo (n / 26 - 1) (String.singleton (Char.ofNat (65 + n % 26)) ++ acc))) := by
  refine ⟨?_, ?_, ?_, ?_, ?_, fun n => getExcelColumn_eq n, fun n acc => ?_⟩
  · simp [columnName, columnNameGo]; decide
  · simp [columnName, columnNameGo]; decide
  · simp [columnName, columnNameGo]; decide
  · simp [columnName, columnNameGo]; decide
  · simp [columnName, columnNameGo]; decide
  · rw [columnNameGo]
    split <;> rfl

/- ### Date-serial lemmas -/

lemma specDateSerial_eq (ms : Int) : specDateSerial ms = convertToExcelDate ms := by
  unfold specDateSerial convertToExcelDate DAY_MS
  norm_num

/-- C5: Date serial conversion.  A date cell is emitted as a numeric cell
whose only attributes are its reference and the pre-defined date style
`s="1"` — no type marker — and its value is the serial
`round(((ms - EPOCH) / 86_400_000) * 100000) / 100000` of the spec, where
`EPOCH` is midnight of December 30, 1899 and `jsRound` is JavaScript's
`Math.round` (floor of `x + 1/2`). -/
theorem c5_date_serial :
    (∀ ms, convertToExcelDate ms = specDateSerial ms) ∧
    (∀ ms, specDateSerial ms =
      ((jsRound ((((ms : ℚ) - (EPOCH : ℚ)) / 86400000) * 100000) : ℤ) : ℚ) / 100000) ∧
    (∀ rstr ci ms ss, cellXML rstr ci (.date ms) ss =
      ("<c r=\"" ++ getExcelColumn ci ++ rstr ++ "\" s=\"1\"><v>" ++
        qToString (specDateSerial ms) ++ "</v></c>", ss)) := by
  refine ⟨fun ms => (specDateSerial_eq ms).symm, fun ms => rfl, fun rstr ci ms ss => ?_⟩
  rw [specDateSerial_eq]
  rfl

/- ### Escaping lemmas -/

/-- Modelled from the claim's escaping rule: each control byte becomes
`?`, each of the five XML-special characters becomes its entity form, and
every remaining ordinary character is unchanged. -/
def specEscapeChar (c : Char) : String :=
  if c.toNat ≤ 0x1F ∨ c.toNat = 0x7F then "?"
  else if c = '&' then "&amp;"
  else if c = '<' then "&lt;"
  else if c = '>' then "&gt;"
  else if c = '"' then "&quot;"
  else if c = '\'' then "&apos;"
  else String.singleton c

lemma escapeXML_eq_join (s : String) :
    escapeXML s = String.join (s.data.map (fun c => escapeChar2 (escapeChar1 c))) := by
  unfold escapeXML pass2 pass1
  rw [show (String.mk (s.data.map escapeChar1)).data = s.data.map escapeChar1 from rfl,
    List.map_map]
  rfl

lemma escape_comp (c : Char) (hc : c ≠ '\\') :
    escapeChar2 (escapeChar1 c) = specEscapeChar c := by
  by_cases h : c.toNat ≤ 31 ∨ c.toNat = 127
  · simp only [escapeChar1, escapeChar2, specEscapeChar, if_pos h]
    decide
  · simp [escapeChar1, escapeChar2, specEscapeChar, h, hc]

lemma escapeChar1_not_ctrl (c : Char) :
    ¬((escapeChar1 c).toNat ≤ 31 ∨ (escapeChar1 c).toNat = 127) := by
  unfold escapeChar1
  split_ifs with h
  · decide
  · exact h

lemma escapeChar2_safe (d : Char) (hd : ¬(d.toNat ≤ 31 ∨ d.toNat = 127)) :
    ∀ c' ∈ (escapeChar2 d).data, ¬(c'.toNat ≤ 31 ∨ c'.toNat = 127) ∧ c' ≠ '<' := by
  unfold escapeChar2
  split_ifs with h1 h2 h3 h4 h5 h6
  · decide
  · decide
  · decide
  · decide
  · decide
  · decide
  · intro c' hc'
    have hcd : c' = d := by
      have hsing : (String.singleton d).data = [d] := rfl
      rw [hsing] at hc'
      simpa using hc'
    subst hcd
    exact ⟨hd, h2⟩

/-- Counterexample to C7 as stated: the string `&<>"'\x01\\` contains
the five special characters and a control byte, so it is in the claim's
scope, yet the escaping rule does not leave its remaining ordinary
character — the backslash — unchanged: `escapeXML` yields
`&amp;&lt;&gt;&quot;&apos;?undefined` (the backslash becomes the literal
text `undefined`), while the claim's character map would keep the
backslash, yielding `&amp;&lt;&gt;&quot;&apos;?\\`. -/
theorem c7_escaping_counterexample :
    ('&' ∈ ("&<>\"'\x01\\" : String).data) ∧
    ('<' ∈ ("&<>\"'\x01\\" : String).data) ∧
    ('>' ∈ ("&<>\"'\x01\\" : String).data) ∧
    ('"' ∈ ("&<>\"'\x01\\" : String).data) ∧
    ('\'' ∈ ("&<>\"'\x01\\" : String).data) ∧
    ('\x01' ∈ ("&<>\"'\x01\\" : String).data) ∧
    escapeXML "&<>\"'\x01\\" = "&amp;&lt;&gt;&quot;&apos;?undefined" ∧
    String.join (("&<>\"'\x01\\" : String).data.map specEscapeChar) =
      "&amp;&lt;&gt;&quot;&apos;?\\" ∧
    escapeXML "&<>\"'\x01\\" ≠
      String.join (("&<>\"'\x01\\" : String).data.map specEscapeChar) := by
  refine ⟨by decide, by decide, by decide, by decide, by decide, by decide, by decide,
    by decide, by decide⟩

/-- C7 (amended): XML escaping.  For any string free of backslashes (the
one character the regular expression treats specially but the claim's
rule does not cover — each backslash instead becomes the literal text
`undefined`, see the companion implicit claim C10 and the counterexample
above), `escapeXML` is exactly the claim's character map: control bytes
become `?`, the five special characters become their entity forms,
remaining ordinary characters are unchanged; and the escaped text is
XML-safe — it contains no control byte and no raw `<`. -/
theorem c7_escaping :
    ∀ s : String, (∀ c ∈ s.data, c ≠ '\\') →
      escapeXML s = String.join (s.data.map specEscapeChar) ∧
      ∀ c' ∈ (escapeXML s).data, ¬(c'.toNat ≤ 31 ∨ c'.toNat = 127) ∧ c' ≠ '<' := by
  intro s hs
  constructor
  · rw [escapeXML_eq_join]
    congr 1
    exact List.map_congr_left fun c hc => escape_comp c (hs c hc)
  · intro c' hc'
    rw [escapeXML_eq_join] at hc'
    simp only [String.data_join, List.map_map, List.mem_flatten, List.mem_map,
      Function.comp] at hc'
    obtain ⟨l, hl, hmem⟩ := hc'
    obtain ⟨c, hc, rfl⟩ := hl
    exact escapeChar2_safe (escapeChar1 c) (escapeChar1_not_ctrl c) c' hmem

/-- Witness for C7 at the concrete string `&<>"'\x01a` of the spec's
example: it contains no backslash, and escaping maps it through the
claim's character map, yielding `&amp;&lt;&gt;&quot;&apos;?a`. -/
theorem c7_escaping_witness :
    (∀ c ∈ ("&<>\"'\x01a" : String).data, c ≠ '\\') ∧
    escapeXML "&<>\"'\x01a" = String.join (("&<>\"'\x01a" : String).data.map specEscapeChar) ∧
    escapeXML "&<>\"'\x01a" = "&amp;&lt;&gt;&quot;&apos;?a" := by
  refine ⟨by decide, (c7_escaping "&<>\"'\x01a" (by decide)).1, by decide⟩

/-- C10 (implicit): backslash handling.  `escapeXML` is a character-wise
homomorphism, it maps a lone backslash to the nine-character literal text
`undefined` (the replacement regex matches `\` but the entity table has no
entry for it), and consequently `a\b` escapes to `aundefinedb`. -/
theorem c10_backslash_undefined :
    (∀ a b : String, escapeXML (a ++ b) = escapeXML a ++ escapeXML b) ∧
    escapeXML "\\" = "undefined" ∧
    escapeXML "a\\b" = "aundefinedb" := by
  refine ⟨fun a b => ?_, by decide, by decide⟩
  rw [escapeXML_eq_join, escapeXML_eq_join, escapeXML_eq_join]
  rw [show (a ++ b).data = a.data ++ b.data from rfl, List.map_append, joinAppend]

/- ### SharedStrings lemmas -/

@[simp] lemma runAdds_nil (ss : SharedStrings) : runAdds [] ss = ss := rfl

@[simp] lemma runAdds_cons (s : String) (l : List String) (ss : SharedStrings) :
    runAdds (s :: l) ss = runAdds l (ss.add s).2 := rfl

lemma add_of_some {ss : SharedStrings} {s : String} {i : Nat}
    (h : idxOf? ss.strings s = some i) : ss.add s = (i, ss) := by
  unfold SharedStrings.add
  rw [h]

lemma add_of_none {ss : SharedStrings} {s : String}
    (h : idxOf? ss.strings s = none) :
    ss.add s = (ss.strings.length, ⟨ss.strings ++ [s]⟩) := by
  unfold SharedStrings.add
  rw [h]

lemma addId_of_some {ss : SharedStrings} {s : String} {i : Nat}
    (h : idxOf? ss.strings s = some i) : addId ss s = i := by
  unfold addId
  rw [add_of_some h]

lemma addId_of_none {ss : SharedStrings} {s : String}
    (h : idxOf? ss.strings s = none) : addId ss s = ss.strings.length := by
  unfold addId
  rw [add_of_none h]

lemma idxOf?_eq_none {l : List String} {s : String} :
    idxOf? l s = none ↔ s ∉ l := by
  induction l with
  | nil => simp [idxOf?]
  | cons a l ih =>
    by_cases h : a = s
    · simp [idxOf?, h]
    · cases hl : idxOf? l s <;>
        simp_all [idxOf?, eq_comm, Ne.symm h]

lemma idxOf?_append (l m : List String) (s : String) :
    idxOf? (l ++ m) s =
      (match idxOf? l s with
       | some i => some i
       | none => (idxOf? m s).map (· + l.length)) := by
  induction l with
  | nil => cases h : idxOf? m s <;> simp [idxOf?, h]
  | cons a l ih =>
    by_cases h : a = s
    · simp [idxOf?, h]
    · cases hl : idxOf? l s
      · cases hm : idxOf? m s
        · simp [idxOf?, h, ih, hl, hm]
        · simp [idxOf?, h, ih, hl, hm, List.length_cons]
          omega
      · simp [idxOf?, h, ih, hl]

lemma idxOf?_getElem {l : List String} {s : String} {i : Nat}
    (h : idxOf? l s = some i) : l[i]? = some s := by
  induction l generalizing i with
  | nil => simp [idxOf?] at h
  | cons a l ih =>
    by_cases ha : a = s
    · subst ha
      simp [idxOf?] at h
      subst h
      simp
    · simp only [idxOf?, if_neg ha] at h
      cases hl : idxOf? l s with
      | none => rw [hl] at h; simp at h
      | some j =>
        rw [hl] at h
        simp at h
        subst h
        simpa using ih hl

lemma idxOf?_lt {l : List String} {s : String} {i : Nat}
    (h : idxOf? l s = some i) : i < l.length := by
  induction l generalizing i with
  | nil => simp [idxOf?] at h
  | cons a l ih =>
    by_cases ha : a = s
    · simp [idxOf?, ha] at h
      simp [List.length_cons]
      omega
    · simp only [idxOf?, if_neg ha] at h
      cases hl : idxOf? l s with
      | none => rw [hl] at h; simp at h
      | some j =>
        rw [hl] at h
        simp at h
        have := ih hl
        simp [List.length_cons]
        omega

lemma add_idxOf? (ss : SharedStrings) (s : String) :
    idxOf? (ss.add s).2.strings s = some (ss.add s).1 := by
  cases h : idxOf? ss.strings s with
  | some i => rw [add_of_some h]; exact h
  | none =>
    rw [add_of_none h]
    show idxOf? (ss.strings ++ [s]) s = _
    rw [idxOf?_append, h]
    simp [idxOf?]

lemma add_strings_cases (ss : SharedStrings) (s : String) :
    (ss.add s).2.strings = ss.strings ∨ (ss.add s).2.strings = ss.strings ++ [s] := by
  cases h : idxOf? ss.strings s
  · rw [add_of_none h]; right; rfl
  · rw [add_of_some h]; left; rfl

lemma runAdds_ext (l : List String) (ss : SharedStrings) :
    ∃ t, (runAdds l ss).strings = ss.strings ++ t := by
  induction l generalizing ss with
  | nil => exact ⟨[], by simp⟩
  | cons s l ih =>
    obtain ⟨t, ht⟩ := ih (ss.add s).2
    rcases add_strings_cases ss s with h | h
    · exact ⟨t, by simpa [h] using ht⟩
    · exact ⟨[s] ++ t, by rw [runAdds_cons, ht, h, List.append_assoc]⟩

lemma idxOf?_stable {ss : SharedStrings} {s : String} {i : Nat}
    (h : idxOf? ss.strings s = some i) (m : List String) :
    idxOf? (runAdds m ss).strings s = some i := by
  obtain ⟨t, ht⟩ := runAdds_ext m ss
  rw [ht, idxOf?_append, h]

lemma addId_stable (ss : SharedStrings) (s : String) (m : List String) :
    addId (runAdds m (ss.add s).2) s = (ss.add s).1 :=
  addId_of_some (idxOf?_stable (add_idxOf? ss s) m)

lemma add_toFinset (ss : SharedStrings) (s : String) :
    (ss.add s).2.strings.toFinset = insert s ss.strings.toFinset := by
  cases h : idxOf? ss.strings s with
  | some i =>
    rw [add_of_some h]
    have hmem : s ∈ ss.strings := by
      by_contra hn
      rw [idxOf?_eq_none.mpr hn] at h
      exact Option.noConfusion h
    simp [Finset.insert_eq_self.mpr (List.mem_toFinset.mpr hmem)]
  | none =>
    rw [add_of_none h]
    show (ss.strings ++ [s]).toFinset = insert s ss.strings.toFinset
    apply Finset.ext
    intro x
    simp [or_comm]

lemma add_nodup {ss : SharedStrings} (s : String) (h : ss.strings.Nodup) :
    (ss.add s).2.strings.Nodup := by
  cases hx : idxOf? ss.strings s with
  | some i => rw [add_of_some hx]; exact h
  | none =>
    rw [add_of_none hx]
    have hnm : s ∉ ss.strings := idxOf?_eq_none.mp hx
    simp [List.nodup_append, h, hnm]

lemma runAdds_toFinset (l : List String) (ss : SharedStrings) :
    (runAdds l ss).strings.toFinset = ss.strings.toFinset ∪ l.toFinset := by
  induction l generalizing ss with
  | nil => simp
  | cons s l ih =>
    rw [runAdds_cons, ih, add_toFinset, List.toFinset_cons, Finset.insert_union,
      Finset.union_insert]

lemma runAdds_nodup (l : List String) (ss : SharedStrings) (h : ss.strings.Nodup) :
    (runAdds l ss).strings.Nodup := by
  induction l generalizing ss with
  | nil => simpa
  | cons s l ih => exact ih (ss.add s).2 (add_nodup s h)

lemma runAdds_empty_mem (l : List String) (s : String) :
    s ∈ (runAdds l SharedStrings.empty).strings ↔ s ∈ l := by
  have h := runAdds_toFinset l SharedStrings.empty
  have := Finset.ext_iff.mp h s
  simpa [SharedStrings.empty] using this

/-- C2: StringTable deduplication.  Starting from a fresh table and any
sequence of `add` calls: (1) re-adding a string returns the id of its
first `add`, with arbitrary intervening calls; (2) a later call for a
distinct string never returns that id; (3) a string never seen before is
assigned the entry count at the moment of the call; (4) `size()` equals
the number of distinct strings added so far. -/
theorem c2_stringtable_dedup :
    (∀ (l m : List String) (s : String),
      addId (runAdds m ((runAdds l SharedStrings.empty).add s).2) s =
        addId (runAdds l SharedStrings.empty) s) ∧
    (∀ (l m : List String) (s t : String), s ≠ t →
      addId (runAdds m ((runAdds l SharedStrings.empty).add s).2) t ≠
        addId (runAdds l SharedStrings.empty) s) ∧
    (∀ (l : List String) (s : String), s ∉ l →
      addId (runAdds l SharedStrings.empty) s = (runAdds l SharedStrings.empty).size) ∧
    (∀ l : List String, (runAdds l SharedStrings.empty).size = l.toFinset.card) := by
  refine ⟨fun l m s => addId_stable _ s m, fun l m s t hst => ?_, fun l s hs => ?_, fun l => ?_⟩
  · have hs_idx :
        idxOf? (runAdds m ((runAdds l SharedStrings.empty).add s).2).strings s =
          some (addId (runAdds l SharedStrings.empty) s) :=
      idxOf?_stable (add_idxOf? (runAdds l SharedStrings.empty) s) m
    intro hEq
    cases ht : idxOf? (runAdds m ((runAdds l SharedStrings.empty).add s).2).strings t with
    | some j =>
      rw [addId_of_some ht] at hEq
      have h1 := idxOf?_getElem hs_idx
      have h2 := idxOf?_getElem ht
      rw [hEq, h1] at h2
      exact hst (Option.some.inj h2)
    | none =>
      rw [addId_of_none ht] at hEq
      have hlt := idxOf?_lt hs_idx
      omega
  · have hnm : s ∉ (runAdds l SharedStrings.empty).strings :=
      fun hmem => hs ((runAdds_empty_mem l s).mp hmem)
    exact addId_of_none (idxOf?_eq_none.mpr hnm)
  · have hnd : (runAdds l SharedStrings.empty).strings.Nodup :=
      runAdds_nodup l SharedStrings.empty (by simp [SharedStrings.empty])
    have hfin : (runAdds l SharedStrings.empty).strings.toFinset = l.toFinset := by
      rw [runAdds_toFinset]
      simp [SharedStrings.empty]
    unfold SharedStrings.size
    rw [← List.toFinset_card_of_nodup hnd, hfin]

/-- Witness for C2 at concrete inputs: after adding `x` then `a`, a second
`add` of `a` returns the same id, an `add` of `b` returns a different id,
a fresh string's id equals the current size, and size counts distinct
strings. -/
theorem c2_stringtable_dedup_witness :
    (addId (runAdds [] ((runAdds ["x"] SharedStrings.empty).add "a").2) "a" =
      addId (runAdds ["x"] SharedStrings.empty) "a") ∧
    (addId (runAdds [] ((runAdds ["x"] SharedStrings.empty).add "a").2) "b" ≠
      addId (runAdds ["x"] SharedStrings.empty) "a") ∧
    (addId (runAdds ["x"] SharedStrings.empty) "a" =
      (runAdds ["x"] SharedStrings.empty).size) ∧
    ((runAdds ["x", "a", "x"] SharedStrings.empty).size = ["x", "a", "x"].toFinset.card) :=
  ⟨c2_stringtable_dedup.1 ["x"] [] "a",
   c2_stringtable_dedup.2.1 ["x"] [] "a" "b" (by decide),
   c2_stringtable_dedup.2.2.1 ["x"] "a" (by decide),
   c2_stringtable_dedup.2.2.2 ["x", "a", "x"]⟩

/- ### Batching lemmas -/

lemma writeChunk_append (l1 l2 : List Row) (s : Nat) (ss : SharedStrings) :
    writeChunk (l1 ++ l2) s ss =
      ((writeChunk l1 s ss).1 ++ (writeChunk l2 (s + l1.length) (writeChunk l1 s ss).2).1,
       (writeChunk l2 (s + l1.length) (writeChunk l1 s ss).2).2) := by
  induction l1 generalizing s ss with
  | nil => simp [writeChunk, strEmptyAppend]
  | cons r rs ih =>
    simp only [List.cons_append, writeChunk, List.length_cons, List.append_eq]
    rw [ih]
    rw [show s + 1 + rs.length = s + (rs.length + 1) from by omega]
    simp [strAppendAssoc]

lemma chunkLoop_join_aux (n : Nat) :
    ∀ (c : Nat), 0 < c → ∀ (rows : List Row), rows.length ≤ n →
      ∀ (i : Nat) (ss : SharedStrings),
        String.join (chunkLoop c rows i ss).1 = (writeChunk rows i ss).1 ∧
        (chunkLoop c rows i ss).2 = (writeChunk rows i ss).2 := by
  induction n with
  | zero =>
    intro c hc rows hlen i ss
    have : rows = [] := List.eq_nil_of_length_eq_zero (Nat.le_zero.mp hlen)
    subst this
    simp [chunkLoop, writeChunk, joinNil]
  | succ n ih =>
    intro c hc rows hlen i ss
    match rows with
    | [] => simp [chunkLoop, writeChunk, joinNil]
    | r :: rest =>
      have hsplit : r :: rest = (r :: rest.take (c - 1)) ++ rest.drop (c - 1) := by
        simp
      by_cases hle : rest.length ≤ c - 1
      · have hdrop : rest.drop (c - 1) = [] := List.drop_eq_nil_of_le hle
        have htake : rest.take (c - 1) = rest := List.take_of_length_le hle
        constructor
        · simp only [chunkLoop, hdrop, htake]
          rw [joinCons, joinNil, strAppendEmpty]
        · simp only [chunkLoop, hdrop, htake]
      · have hlen2 : (rest.drop (c - 1)).length ≤ n := by
          simp only [List.length_drop]
          simp only [List.length_cons] at hlen
          omega
        have ihq := ih c hc (rest.drop (c - 1)) hlen2 (i + c)
          (writeChunk (r :: rest.take (c - 1)) i ss).2
        have hclen : (r :: rest.take (c - 1)).length = c := by
          simp only [List.length_cons, List.length_take]
          omega
        have happ := writeChunk_append (r :: rest.take (c - 1)) (rest.drop (c - 1)) i ss
        rw [hclen] at happ
        constructor
        · simp only [chunkLoop]
          rw [joinCons, ihq.1]
          conv_rhs => rw [hsplit, happ]
        · simp only [chunkLoop]
          rw [ihq.2]
          conv_rhs => rw [hsplit, happ]

lemma chunkLoop_join (c : Nat) (hc : 0 < c) (rows : List Row) (i : Nat)
    (ss : SharedStrings) :
    String.join (chunkLoop c rows i ss).1 = (writeChunk rows i ss).1 ∧
    (chunkLoop c rows i ss).2 = (writeChunk rows i ss).2 :=
  chunkLoop_join_aux rows.length c hc rows le_rfl i ss

/-- C4: Batching is content-transparent.  For every positive batch size,
the concatenation of the per-batch outputs of the chunking loop (each
batch passed its absolute start index) equals the output of a single
`writeChunk` over all rows, with the same final shared-string state; and
a date cell's emitted element — including its serial value — is a pure
function of the cell and its position, independent of the shared-string
state (hence of which batch contains it). -/
theorem c4_batching_transparent :
    (∀ (c : Nat), 0 < c → ∀ (rows : List Row) (ss : SharedStrings),
      String.join (chunkLoop c rows 0 ss).1 = (writeChunk rows 0 ss).1 ∧
      (chunkLoop c rows 0 ss).2 = (writeChunk rows 0 ss).2) ∧
    (∀ rstr ci ms ss, cellXML rstr ci (.date ms) ss =
      ("<c r=\"" ++ getExcelColumn ci ++ rstr ++ "\" s=\"1\"><v>" ++
        qToString (convertToExcelDate ms) ++ "</v></c>", ss)) :=
  ⟨fun c hc rows ss => chunkLoop_join c hc rows 0 ss, fun _ _ _ _ => rfl⟩

/-- Witness for C4 at batch size 1 on two concrete rows (a number and a
date): the joined batched output and final state equal the single-batch
ones. -/
theorem c4_batching_transparent_witness :
    (0 : Nat) < 1 ∧
    (String.join (chunkLoop 1 [[Cell.num 25], [Cell.date EPOCH]] 0 SharedStrings.empty).1 =
      (writeChunk [[Cell.num 25], [Cell.date EPOCH]] 0 SharedStrings.empty).1 ∧
     (chunkLoop 1 [[Cell.num 25], [Cell.date EPOCH]] 0 SharedStrings.empty).2 =
      (writeChunk [[Cell.num 25], [Cell.date EPOCH]] 0 SharedStrings.empty).2) :=
  ⟨by decide,
   c4_batching_transparent.1 1 (by decide) [[Cell.num 25], [Cell.date EPOCH]]
     SharedStrings.empty⟩

/- ### Substring machinery -/

/-- Does the second character list start with the first? -/
def begWith : List Char → List Char → Bool
  | [], _ => true
  | _ :: _, [] => false
  | a :: as, b :: bs => a == b && begWith as bs

/-- Does the second character list contain the first as a contiguous run? -/
def hasSub (pat : List Char) : List Char → Bool
  | [] => begWith pat []
  | b :: bs => begWith pat (b :: bs) || hasSub pat bs

lemma begWith_iff (p l : List Char) : begWith p l = true ↔ ∃ t, l = p ++ t := by
  induction p generalizing l with
  | nil => simp [begWith]
  | cons a as ih =>
    cases l with
    | nil => simp [begWith]
    | cons b bs =>
      simp only [begWith, Bool.and_eq_true, beq_iff_eq, ih]
      constructor
      · rintro ⟨rfl, t, rfl⟩
        exact ⟨t, rfl⟩
      · rintro ⟨t, ht⟩
        rw [List.cons_append] at ht
        injection ht with h1 h2
        exact ⟨h1.symm, t, h2⟩

lemma hasSub_iff (p l : List Char) :
    hasSub p l = true ↔ ∃ pre post, l = pre ++ p ++ post := by
  induction l with
  | nil =>
    simp only [hasSub, begWith_iff]
    constructor
    · rintro ⟨t, ht⟩
      exact ⟨[], t, by simpa using ht⟩
    · rintro ⟨pre, post, h⟩
      have hp : pre = [] := by
        cases pre
        · rfl
        · simp at h
      subst hp
      exact ⟨post, by simpa using h⟩
  | cons b bs ih =>
    simp only [hasSub, Bool.or_eq_true, begWith_iff, ih]
    constructor
    · rintro (⟨t, ht⟩ | ⟨pre, post, h⟩)
      · exact ⟨[], t, by simpa using ht⟩
      · exact ⟨b :: pre, post, by simp [h]⟩
    · rintro ⟨pre, post, h⟩
      cases pre with
      | nil => exact Or.inl ⟨post, by simpa using h⟩
      | cons x pre' =>
        right
        rw [List.cons_append, List.cons_append] at h
        injection h with h1 h2
        exact ⟨pre', post, h2⟩

/- ### The C1 scenario -/

/-- The spec's example rows `[["Name","Age"],["John",25]]`. -/
def c1sheet : Sheet :=
  ⟨[[Cell.str "Name", Cell.str "Age"], [Cell.str "John", Cell.num 25]], []⟩

/-- The worksheet XML produced for the C1 rows with a batch size of 1. -/
def c1xml : String :=
  "<?xml version=\"1.0\" encoding=\"UTF-8\" standalone=\"yes\"?>\n<worksheet xmlns=\"http://schemas.openxmlformats.org/spreadsheetml/2006/main\"><sheetData><row r=\"1\"><c r=\"A1\" t=\"s\"><v>0</v></c><c r=\"B1\" t=\"s\"><v>1</v></c></row><row r=\"2\"><c r=\"A2\" t=\"s\"><v>2</v></c><c r=\"B2\"><v>25</v></c></row></sheetData></worksheet>"

lemma c1_output_eq :
    generateSheetXML 1 c1sheet SharedStrings.empty = (c1xml, ⟨["Name", "Age", "John"]⟩) := by
  simp [c1sheet, c1xml, generateSheetXML, chunkLoop, writeChunk, rowXML, writeCells, cellXML,
    SharedStrings.add, SharedStrings.empty, idxOf?, getExcelColumn, COLUMNS, columnName,
    columnNameGo, qToString, xmlDecl]
  decide

/-- Counterexample to C1 as stated: in the worksheet XML generated for
`[["Name","Age"],["John",25]]` with batch size 1, the `B1` cell holding
the text "Age" is a shared-string cell `<c r="B1" t="s"><v>1</v></c>` —
it carries the type marker `t="s"` and string-table id 1 — and no
inline-numeric `B1` cell (`<c r="B1"><v>` with no type marker) occurs
anywhere in the output, contradicting the claim that the "Age" cell
resolves to an inline numeric value. -/
theorem c1_cell_dispatch_counterexample :
    (∃ pre post : List Char,
      ((generateSheetXML 1 c1sheet SharedStrings.empty).1).data =
        pre ++ ("<c r=\"B1\" t=\"s\"><v>1</v></c>").data ++ post) ∧
    ¬(∃ pre post : List Char,
      ((generateSheetXML 1 c1sheet SharedStrings.empty).1).data =
        pre ++ ("<c r=\"B1\"><v>").data ++ post) := by
  constructor
  · exact (hasSub_iff _ _).mp (by rw [c1_output_eq]; decide)
  · intro h
    have hs := (hasSub_iff (("<c r=\"B1\"><v>").data)
      (((generateSheetXML 1 c1sheet SharedStrings.empty).1).data)).mpr h
    rw [c1_output_eq] at hs
    exact absurd hs (by decide)

/-- C1 (amended): worksheet cell dispatch for `[["Name","Age"],["John",25]]`
with batch size 1.  The generated XML holds exactly two row elements,
numbered 1 and 2, with cell references A1,B1 and A2,B2; the text cells
"Name", "Age" and "John" resolve to string-table ids 0, 1 and 2 (the
"Age" cell is a text cell, hence a shared-string reference, not an inline
numeric value), while the number 25 is an inline numeric cell with no
type marker; and a null or missing cell at any position emits a cell
element carrying only its reference, with no type marker and no value
child. -/
theorem c1_cell_dispatch_amended :
    generateSheetXML 1 c1sheet SharedStrings.empty = (c1xml, ⟨["Name", "Age", "John"]⟩) ∧
    (∀ rstr ci ss, cellXML rstr ci Cell.null ss =
      ("<c r=\"" ++ getExcelColumn ci ++ rstr ++ "\"/>", ss)) :=
  ⟨c1_output_eq, fun _ _ _ => rfl⟩

/- ### Conditional shared-strings part (src/packing.ts) -/

/-- Is a cell a text cell? -/
def isText : Cell → Bool
  | .str _ => true
  | _ => false

lemma add_ne_nil (ss : SharedStrings) (s : String) : (ss.add s).2.strings ≠ [] := by
  cases h : idxOf? ss.strings s with
  | some i =>
    rw [add_of_some h]
    have hmem : s ∈ ss.strings := by
      by_contra hn
      rw [idxOf?_eq_none.mpr hn] at h
      exact Option.noConfusion h
    exact List.ne_nil_of_mem hmem
  | none =>
    rw [add_of_none h]
    simp

lemma writeCells_strings_nil_iff (cs : List Cell) (ci : Nat) (rstr : String)
    (ss : SharedStrings) :
    (writeCells cs ci rstr ss).2.strings = [] ↔
      ss.strings = [] ∧ ∀ c ∈ cs, isText c = false := by
  induction cs generalizing ci ss with
  | nil => simp [writeCells]
  | cons c cs ih =>
    cases c with
    | str s =>
      simp only [writeCells, cellXML, ih]
      constructor
      · rintro ⟨hnil, -⟩
        exact absurd hnil (add_ne_nil ss s)
      · rintro ⟨-, hall⟩
        have := hall (Cell.str s) (List.mem_cons_self _ _)
        simp [isText] at this
    | num q => simp [writeCells, cellXML, ih, isText]
    | date ms => simp [writeCells, cellXML, ih, isText]
    | null => simp [writeCells, cellXML, ih, isText]

lemma writeChunk_strings_nil_iff (rows : List Row) (i : Nat) (ss : SharedStrings) :
    (writeChunk rows i ss).2.strings = [] ↔
      ss.strings = [] ∧ ∀ r ∈ rows, ∀ c ∈ r, isText c = false := by
  induction rows generalizing i ss with
  | nil => simp [writeChunk]
  | cons r rs ih =>
    have hrow : (rowXML r (i + 1) ss).2 = (writeCells r 0 (toString (i + 1)) ss).2 := rfl
    simp only [writeChunk, ih, hrow, writeCells_strings_nil_iff]
    constructor
    · rintro ⟨⟨h1, h2⟩, h3⟩
      exact ⟨h1, by simpa using ⟨h2, h3⟩⟩
    · rintro ⟨h1, hall⟩
      simp at hall
      exact ⟨⟨h1, hall.1⟩, hall.2⟩

lemma generateSheetXML_strings (c : Nat) (hc : 0 < c) (sheet : Sheet)
    (ss : SharedStrings) :
    (generateSheetXML c sheet ss).2 = (writeChunk sheet.rows 0 ss).2 := by
  unfold generateSheetXML
  exact (chunkLoop_join c hc sheet.rows 0 ss).2

/-- C3: Build sequencing and conditional string-table part.  `build`
generates the worksheet first and examines `size()` afterwards: the
`xl/sharedStrings.xml` entry is present in the final container exactly
when the shared-string table is non-empty after worksheet generation; a
sheet with no text cell (starting from a fresh table) yields no
string-table entry, and a sheet with any text cell yields one. -/
theorem c3_conditional_sst (sheet : Sheet) :
    ("xl/sharedStrings.xml" ∈ (Package.build sheet SharedStrings.empty).1 ↔
      0 < (generateSheetXML CHUNK_SIZE sheet SharedStrings.empty).2.size) ∧
    ((∀ r ∈ sheet.rows, ∀ c ∈ r, isText c = false) →
      "xl/sharedStrings.xml" ∉ (Package.build sheet SharedStrings.empty).1) ∧
    ((∃ r ∈ sheet.rows, ∃ c ∈ r, isText c = true) →
      "xl/sharedStrings.xml" ∈ (Package.build sheet SharedStrings.empty).1) := by
  have hmem : "xl/sharedStrings.xml" ∈ (Package.build sheet SharedStrings.empty).1 ↔
      0 < (generateSheetXML CHUNK_SIZE sheet SharedStrings.empty).2.size := by
    unfold Package.build
    dsimp only
    split
    · rename_i h
      simp only [List.mem_append]
      constructor
      · intro _
        exact h
      · intro _
        right
        simp
    · rename_i h
      constructor
      · intro hin
        exact absurd
          (show ("xl/sharedStrings.xml" : String) ∈
              (["_rels/.rels", "xl/workbook.xml", "xl/_rels/workbook.xml.rels", "xl/styles.xml",
                "[Content_Types].xml"] ++ ["xl/worksheets/sheet1.xml"]) from hin)
          (by decide)
      · intro hpos
        exact absurd hpos h
  have hstate := generateSheetXML_strings CHUNK_SIZE (by decide) sheet SharedStrings.empty
  have hnil := writeChunk_strings_nil_iff sheet.rows 0 SharedStrings.empty
  refine ⟨hmem, fun hno => ?_, fun hyes => ?_⟩
  · rw [hmem, hstate]
    have : (writeChunk sheet.rows 0 SharedStrings.empty).2.strings = [] :=
      hnil.mpr ⟨rfl, hno⟩
    unfold SharedStrings.size
    rw [this]
    simp
  · rw [hmem, hstate]
    unfold SharedStrings.size
    rcases List.eq_nil_or_concat (writeChunk sheet.rows 0 SharedStrings.empty).2.strings
      with hn | ⟨l', a, hcat⟩
    · obtain ⟨-, hall⟩ := hnil.mp hn
      obtain ⟨r, hr, c, hc, hct⟩ := hyes
      have := hall r hr c hc
      rw [this] at hct
      exact absurd hct (by decide)
    · rw [hcat]
      simp

/-- Witness for C3 at concrete sheets: a sheet whose single row holds one
text cell gets the `xl/sharedStrings.xml` entry; a sheet holding a single
numeric cell does not. -/
theorem c3_conditional_sst_witness :
    "xl/sharedStrings.xml" ∈ (Package.build ⟨[[Cell.str "a"]], []⟩ SharedStrings.empty).1 ∧
    "xl/sharedStrings.xml" ∉ (Package.build ⟨[[Cell.num 7]], []⟩ SharedStrings.empty).1 :=
  ⟨(c3_conditional_sst ⟨[[Cell.str "a"]], []⟩).2.2
     ⟨[Cell.str "a"], by simp, Cell.str "a", by simp, rfl⟩,
   (c3_conditional_sst ⟨[[Cell.num 7]], []⟩).2.1
     (by intro r hr c hc; simp at hr; subst hr; simp at hc; subst hc; rfl)⟩

/- ### Shared-strings generation lemmas -/

lemma runAdds_size_card (l : List String) :
    (runAdds l SharedStrings.empty).size = l.toFinset.card := by
  have hnd : (runAdds l SharedStrings.empty).strings.Nodup :=
    runAdds_nodup l SharedStrings.empty (by simp [SharedStrings.empty])
  have hfin : (runAdds l SharedStrings.empty).strings.toFinset = l.toFinset := by
    rw [runAdds_toFinset]
    simp [SharedStrings.empty]
  unfold SharedStrings.size
  rw [← List.toFinset_card_of_nodup hnd, hfin]

lemma sstLoop_join (b : Nat) :
    ∀ (strs acc : List String),
      String.join (sstLoop b strs acc).1 ++ String.join (sstLoop b strs acc).2 =
        String.join acc ++ String.join (strs.map siEntry) := by
  intro strs
  induction strs with
  | nil =>
    intro acc
    simp only [sstLoop, joinNil, List.map_nil]
    rw [strEmptyAppend, strAppendEmpty]
  | cons s rest ih =>
    intro acc
    by_cases hb : (acc ++ [siEntry s]).length % b = 0
    · simp only [sstLoop, if_pos hb]
      rw [joinCons, strAppendAssoc, ih []]
      rw [joinNil, strEmptyAppend, joinAppend, joinCons, joinNil, strAppendEmpty,
        List.map_cons, joinCons, strAppendAssoc]
    · simp only [sstLoop, if_neg hb]
      rw [ih (acc ++ [siEntry s])]
      rw [joinAppend, joinCons, joinNil, strAppendEmpty, List.map_cons, joinCons,
        strAppendAssoc]

lemma generateSharedStringsXML_join (b : Nat) (ss : SharedStrings) :
    String.join (generateSharedStringsXML b ss) = sstDirect ss := by
  unfold generateSharedStringsXML sstDirect
  rw [joinCons, joinAppend, joinCons, joinNil, strAppendEmpty]
  rw [show String.join (sstLoop b ss.strings []).1 ++
        (String.join (sstLoop b ss.strings []).2 ++ "</sst>") =
      (String.join (sstLoop b ss.strings []).1 ++ String.join (sstLoop b ss.strings []).2) ++
        "</sst>" from (strAppendAssoc _ _ _).symm]
  rw [sstLoop_join b ss.strings [], joinNil, strEmptyAppend]
  simp [strAppendAssoc]

/-- C6: String-table XML generation.  For every table state reached by a
sequence of `add` calls, the complete written output — whatever the batch
size, with no entry split across batches — equals the single-piece
document: header, every entry exactly once in insertion order (each
escaped via `escapeXML`), closing tag; the header's `count` and
`uniqueCount` attributes are both `size()`, the unique entry count,
regardless of how many times each string was added. -/
theorem c6_sst_generation :
    ∀ (b : Nat) (l : List String),
      String.join (generateSharedStringsXML b (runAdds l SharedStrings.empty)) =
        sstDirect (runAdds l SharedStrings.empty) ∧
      sstDirect (runAdds l SharedStrings.empty) =
        xmlDecl ++ sstOpen (runAdds l SharedStrings.empty).size ++
          String.join ((runAdds l SharedStrings.empty).strings.map siEntry) ++ "</sst>" ∧
      (runAdds l SharedStrings.empty).size = l.toFinset.card :=
  fun b l =>
    ⟨generateSharedStringsXML_join b (runAdds l SharedStrings.empty), rfl,
     runAdds_size_card l⟩


/- ### Column-width lemmas -/

/-- Apply a sequence of raw `(key, value)` writes left to right. -/
def applyWrites (ws : List (JsVal × JsVal)) (m : List (JsVal × JsVal)) :
    List (JsVal × JsVal) :=
  ws.foldl (fun m' p => mapSet m' p.1 p.2) m

lemma keyEq_eq {a b : JsVal} (h : keyEq a b = true) : a = b := by
  cases a <;> cases b <;> simp_all [keyEq]

lemma keyEq_trans_left {k' k : JsVal} (h : keyEq k' k = true) (i : JsVal) :
    keyEq k' i = keyEq k i := by
  rw [keyEq_eq h]

lemma keyEq_refl_of {a b : JsVal} (h : keyEq a b = true) : keyEq b b = true := by
  cases a <;> cases b <;> simp_all [keyEq]

lemma mapGet?_mapSet (m : List (JsVal × JsVal)) (k v i : JsVal) :
    mapGet? (mapSet m k v) i = if keyEq k i then some v else mapGet? m i := by
  induction m with
  | nil => rfl
  | cons p rest ih =>
    obtain ⟨k', v'⟩ := p
    by_cases hk : keyEq k' k = true
    · have hsub : mapSet ((k', v') :: rest) k v = (k', v) :: rest := by
        simp [mapSet, hk]
      rw [hsub]
      simp only [mapGet?]
      rw [keyEq_trans_left hk i]
      by_cases hki : keyEq k i = true <;> simp [hki]
    · have hkf : keyEq k' k = false := by simpa using hk
      simp only [mapSet, hkf, Bool.false_eq_true, if_false, mapGet?, ih]
      by_cases hi : keyEq k' i = true
      · have hki : keyEq k i = false := by
          cases hkk : keyEq k i with
          | false => rfl
          | true =>
            exfalso
            have h1 : k = i := keyEq_eq hkk
            have h2 : k' = i := keyEq_eq hi
            have h3 : keyEq i i = true := keyEq_refl_of hkk
            rw [h1, h2] at hkf
            rw [h3] at hkf
            exact Bool.noConfusion hkf
        simp [hi, hki]
      · have hif : keyEq k' i = false := by simpa using hi
        simp [hif]

lemma mapGet?_applyWrites (ws : List (JsVal × JsVal)) (m : List (JsVal × JsVal))
    (i : JsVal) :
    mapGet? (applyWrites ws m) i =
      (match lastWrite ws i with
       | some w => some w
       | none => mapGet? m i) := by
  induction ws generalizing m with
  | nil => rfl
  | cons p ws ih =>
    obtain ⟨k, v⟩ := p
    simp only [applyWrites, List.foldl_cons] at *
    rw [ih (mapSet m k v)]
    cases hw : lastWrite ws i with
    | some w => simp [lastWrite, hw]
    | none =>
      simp only [lastWrite, hw, mapGet?_mapSet]
      by_cases hk : keyEq k i = true <;> simp [hk]

lemma bulkLoop_map (l : List JsVal) (m : List (JsVal × JsVal)) :
    (bulkLoop l m).1 = applyWrites (writesOfBulk l) m := by
  induction l generalizing m with
  | nil => rfl
  | cons e rest ih =>
    cases hd : jsDestr e with
    | none => simp [bulkLoop, writesOfBulk, hd, applyWrites]
    | some p => simp [bulkLoop, writesOfBulk, hd, applyWrites, ih]

lemma setColumWidth_map (m : List (JsVal × JsVal)) (a w : JsVal) :
    (setColumWidth m a w).1 = applyWrites (writesOf a w) m := by
  cases a with
  | arr l => exact bulkLoop_map l m
  | num i => cases w <;> rfl
  | str s => rfl
  | undefined => rfl

lemma applyCalls_writes (calls : List (JsVal × JsVal)) (m : List (JsVal × JsVal)) :
    applyCalls calls m =
      applyWrites ((calls.map (fun c => writesOf c.1 c.2)).flatten) m := by
  induction calls generalizing m with
  | nil => rfl
  | cons c calls ih =>
    simp only [applyCalls, List.map_cons, List.flatten_cons]
    rw [setColumWidth_map, ih]
    unfold applyWrites
    rw [List.foldl_append]

/-- Counterexample to C8 as stated: malformed width arguments are not
always silently ignored.  `setColumWidth([5])` passes the `Array.isArray`
test and then throws a `TypeError` destructuring the non-iterable element
`5` — the call is rejected with an error; and `setColumWidth([["a",5]])`
silently writes the junk entry `"a" → 5` — the width map is changed, not
left unchanged. -/
theorem c8_column_widths_counterexample :
    (setColumWidth [] (JsVal.arr [JsVal.num 5]) JsVal.undefined = ([], some "TypeError") ∧
      some "TypeError" ≠ (none : Option String)) ∧
    (setColumWidth [] (JsVal.arr [JsVal.arr [JsVal.str "a", JsVal.num 5]]) JsVal.undefined =
      ([(JsVal.str "a", JsVal.num 5)], none) ∧
      ([(JsVal.str "a", JsVal.num 5)] : List (JsVal × JsVal)) ≠ []) :=
  ⟨⟨rfl, fun h => Option.noConfusion h⟩, ⟨rfl, fun h => List.noConfusion h⟩⟩

/-- C8 (amended): column-width setting.  For every sequence of
`setColumWidth` calls over any starting map, the value recorded for a key
is the last one written for that key (bulk writes in list order, later
wins), falling back to the prior map when nothing wrote it;
`setColumWidth(0,15)` followed by `setColumWidth(0,20)` leaves column 0 at
width 20; an argument whose top-level shape matches neither overload —
not an array, and not a number paired with a number — is silently ignored,
leaving the map unchanged and raising no error; but an array argument is
applied element by element without validation: a non-iterable element
raises a `TypeError` (keeping the writes already made), and iterable
elements of the wrong types write their junk contents into the map. -/
theorem c8_column_widths_amended :
    (∀ (calls : List (JsVal × JsVal)) (m : List (JsVal × JsVal)) (i : JsVal),
      mapGet? (applyCalls calls m) i =
        (match lastWrite ((calls.map (fun c => writesOf c.1 c.2)).flatten) i with
         | some w => some w
         | none => mapGet? m i)) ∧
    (setColumWidth (setColumWidth [] (JsVal.num 0) (JsVal.num 15)).1
      (JsVal.num 0) (JsVal.num 20)).1 = [(JsVal.num 0, JsVal.num 20)] ∧
    (∀ (m : List (JsVal × JsVal)) (a w : JsVal),
      a.isArr = false → (a.isNum && w.isNum) = false →
        setColumWidth m a w = (m, none)) ∧
    setColumWidth [] (JsVal.arr [JsVal.num 5]) JsVal.undefined = ([], some "TypeError") ∧
    setColumWidth [] (JsVal.arr [JsVal.arr [JsVal.str "a", JsVal.num 5]]) JsVal.undefined =
      ([(JsVal.str "a", JsVal.num 5)], none) := by
  refine ⟨fun calls m i => ?_, rfl, fun m a w ha haw => ?_, rfl, rfl⟩
  · rw [applyCalls_writes, mapGet?_applyWrites]
  · cases a with
    | arr l => simp [JsVal.isArr] at ha
    | num q =>
      cases w with
      | num qw => simp [JsVal.isNum] at haw
      | str s => rfl
      | arr l => rfl
      | undefined => rfl
    | str s => rfl
    | undefined => rfl

/-- Witness for C8 (amended) at concrete inputs: the argument pair
(`"x"`, `5`) matches neither overload's shape and the call leaves the map
unchanged without raising an error. -/
theorem c8_column_widths_amended_witness :
    (JsVal.str "x").isArr = false ∧
    ((JsVal.str "x").isNum && (JsVal.num 5).isNum) = false ∧
    setColumWidth [] (JsVal.str "x") (JsVal.num 5) = ([], none) :=
  ⟨rfl, rfl, c8_column_widths_amended.2.2.1 [] (JsVal.str "x") (JsVal.num 5) rfl rfl⟩
